import Mathlib

/-!
Verification of the App-Store-Data automation scripts.

The first part embeds the staleness detector (the update-checker script):
its GitHub API calls are modelled as oracle inputs (`Option`-valued
responses, `none` denoting a transport or API failure), and the pure
decision logic — path joining, change-relevance filtering, the
per-declaration reconciliation, summary counting and exit behaviour — is
translated function by function from the source.

The second part embeds the category timestamp generator: the git history
lookups are modelled as an oracle from category slug to timestamp, and the
construction of the combined categories index (sorting, totals) is
translated from the source.
-/

/-! ### Shared string machinery

The JS code manipulates paths through `String.prototype.includes`,
`startsWith`, `slice`, Node posix `path.join` and a regex replace.  They
are embedded below on `List Char` (the `data` field of `String`) so that
every definition reduces in the kernel.
-/

/-- JS `s.includes(sub)`: `sub` occurs contiguously inside `s`. -/
def strIncludes (s sub : String) : Bool :=
  decide (sub.data <:+: s.data)

/-- Split a character list at every slash, keeping empty groups
(the splitting Node performs on the path separator). -/
def splitSlashes : List Char → List (List Char)
  | [] => [[]]
  | c :: rest =>
    match splitSlashes rest with
    | [] => [[]]
    | g :: gs => if c = '/' then [] :: g :: gs else (c :: g) :: gs

/-- The segment stack of Node posix path normalization: empty and `.`
segments are dropped, `..` pops a previous segment (or is kept at the
front of a relative path, or dropped at the root of an absolute path). -/
def normSegs (isAbs : Bool) : List String → List String → List String
  | acc, [] => acc.reverse
  | acc, p :: rest =>
    if p = "" ∨ p = "." then normSegs isAbs acc rest
    else if p = ".." then
      match acc with
      | [] => if isAbs then normSegs isAbs [] rest else normSegs isAbs [".."] rest
      | top :: tl =>
        if top = ".." then normSegs isAbs (".." :: top :: tl) rest
        else normSegs isAbs tl rest
    else normSegs isAbs (p :: acc) rest

/-- Join path segments with a slash (Node writes the separator between
consecutive segments). -/
def joinParts : List String → String
  | [] => ""
  | [p] => p
  | p :: q :: ps => p ++ "/" ++ joinParts (q :: ps)

/-- Node posix `path.normalize`: resolve `.`, `..` and repeated slashes,
keep a leading slash of an absolute path and a trailing slash of the
input, and return `.` for an empty relative result. -/
def normalizePath (s : String) : String :=
  if s = "" then "."
  else
    let isAbs : Bool := decide (s.data.head? = some '/')
    let hasTrail : Bool := decide (s.data.getLast? = some '/')
    let parts := (splitSlashes s.data).map String.mk
    let core := joinParts (normSegs isAbs [] parts)
    let base := if isAbs then "/" ++ core else if core = "" then "." else core
    if hasTrail && !(decide (base.data.getLast? = some '/')) then base ++ "/" else base

/-- Node posix `path.join` of two segments: the non-empty segments joined
with a slash and normalized; joining nothing yields `.`. -/
def joinPath (a b : String) : String :=
  let joined := if a = "" then b else if b = "" then a else a ++ "/" ++ b
  if joined = "" then "." else normalizePath joined

/-- The global regex replace of every backslash by a slash,
`.replace(/\\/g, a slash)`. -/
def replaceBackslashes (s : String) : String :=
  String.mk (s.data.map fun c => if c = '\\' then '/' else c)

/-! ### Data model of the staleness detector -/

/-- A commit summary as returned by the listCommits API: the fields the
script reads (`sha`, committer `date`, `message`). -/
structure Commit where
  sha : String
  date : String
  message : String
deriving DecidableEq

/-- One entry of a compareCommits response, with the fields the script
reads (`filename`, `status`, `additions`, `deletions`, `patch`).  The
script maps each relevant entry to a record of these same five fields, so
the mapped record is identified with the entry itself. -/
structure ChangedFile where
  filename : String
  status : String
  additions : Nat
  deletions : Nat
  patch : String
deriving DecidableEq

/-- An element of the `files` array of a declaration: either a bare path
string or an object whose `source` field (when present) names the path. -/
inductive FileEntry where
  | str (s : String)
  | obj (source : Option String)
deriving DecidableEq

/-- A parsed `metadata.json` declaration.  `path := none` models an absent
`path` field and `files := none` models an absent (or non-array) `files`
field. -/
structure Metadata where
  name : String
  owner : String
  repo : String
  commit : String
  path : Option String
  files : Option (List FileEntry)
deriving DecidableEq

/-- JS `metadata.path || a slash`: an absent or empty (falsy) path
defaults to the root. -/
def pathOrRoot (p : Option String) : String :=
  match p with
  | none => "/"
  | some s => if s = "" then "/" else s

/-- JS `trackPath.startsWith(a slash) ? trackPath.slice(1) : trackPath`:
strip a single leading slash. -/
def normalizeTrackPath (trackPath : String) : String :=
  match trackPath.data with
  | '/' :: rest => String.mk rest
  | _ => trackPath

/-- The relevance test of the change filter: some tracked path, once its
leading slash is stripped, contains the changed filename or is contained
in it. -/
def matchesTracked (filePaths : List String) (filename : String) : Bool :=
  filePaths.any fun trackPath =>
    let normalizedTrackPath := normalizeTrackPath trackPath
    strIncludes filename normalizedTrackPath || strIncludes normalizedTrackPath filename

/-- `comparison.data.files.filter(...)` of `getFileChanges`. -/
def relevantFiles (files : List ChangedFile) (filePaths : List String) : List ChangedFile :=
  files.filter fun f => matchesTracked filePaths f.filename

/-- The record `getFileChanges` returns on success. -/
structure Changes where
  totalChanges : Nat
  relevantChanges : Nat
  files : List ChangedFile
deriving DecidableEq

/-- `getFileChanges`: on an API failure (`comparison = none`) return
`none` (the JS catch returns null); otherwise count all changed files and
the relevant subset. -/
def getFileChanges (comparison : Option (List ChangedFile)) (filePaths : List String) :
    Option Changes :=
  match comparison with
  | none => none
  | some files =>
    let rel := relevantFiles files filePaths
    some { totalChanges := files.length, relevantChanges := rel.length, files := rel }

/-- `getLatestCommit`: on an API failure return `none` (the JS catch
returns null); on success return `response.data[0]`, which is absent
(undefined, hence falsy) when the commit list is empty. -/
def getLatestCommit (response : Option (List Commit)) : Option Commit :=
  match response with
  | none => none
  | some data => data.head?

/-- Resolution of one `files` entry to a tracked path: a string entry is
joined to the path scope; an object entry is joined only when its
`source` field is truthy (present and non-empty), and otherwise resolves
to the empty string, which the subsequent filter drops. -/
def resolveEntry (base : String) : FileEntry → String
  | .str s => replaceBackslashes (joinPath base s)
  | .obj none => ""
  | .obj (some src) => if src = "" then "" else replaceBackslashes (joinPath base src)

/-- The `filePaths` list the main loop builds: absent (non-array) `files`
gives the empty list; otherwise each entry is resolved against
`metadata.path || root` and falsy (empty) results are filtered out. -/
def trackedPaths (md : Metadata) : List String :=
  match md.files with
  | none => []
  | some fs =>
    (fs.map (resolveEntry (pathOrRoot md.path))).filter fun p => decide (p ≠ "")

/-- The per-declaration verdict: exactly one of the three outcomes. -/
inductive Verdict where
  | upToDate
  | updateAvailable
  | error
deriving DecidableEq

/-- The oracle inputs of one loop iteration: the parsed declaration
(`none` when reading or parsing the file throws), the listCommits
response (`none` on API failure) and the compareCommits response (`none`
on API failure). -/
structure DeclWorld where
  md : Option Metadata
  commitsResp : Option (List Commit)
  compareResp : Option (List ChangedFile)
deriving DecidableEq

/-- The decision logic of one iteration of the main loop: a read or parse
failure is caught as an error; a failed latest-commit fetch is counted as
an error and skipped; equal commits short-circuit to up-to-date; on a
mismatch, a non-empty tracked list defers to the change filter (null or
zero relevant changes meaning up-to-date) and an empty tracked list is
treated as update-available. -/
def processDecl (w : DeclWorld) : Verdict :=
  match w.md with
  | none => .error
  | some md =>
    match getLatestCommit w.commitsResp with
    | none => .error
    | some latestCommit =>
      if md.commit = latestCommit.sha then .upToDate
      else
        let filePaths := trackedPaths md
        if 0 < filePaths.length then
          match getFileChanges w.compareResp filePaths with
          | some changes => if 0 < changes.relevantChanges then .updateAvailable else .upToDate
          | none => .upToDate
        else .updateAvailable

/-- Whether the iteration reaches the compareCommits call: only after a
successful fetch, a commit mismatch and a non-empty tracked list. -/
def diffCalled (w : DeclWorld) : Bool :=
  match w.md with
  | none => false
  | some md =>
    match getLatestCommit w.commitsResp with
    | none => false
    | some latestCommit =>
      if md.commit = latestCommit.sha then false
      else decide (0 < (trackedPaths md).length)

/-- The delay length of the await at the end of the loop body,
in milliseconds. -/
def delayMs : Nat := 100

/-- Whether the iteration executes the rate-limit delay: the await sits at
the end of the try block, so the early `continue` after a failed
latest-commit fetch skips it, and so does the catch block after a read or
parse failure. -/
def delayPerformed (w : DeclWorld) : Bool :=
  match w.md with
  | none => false
  | some _ =>
    match getLatestCommit w.commitsResp with
    | none => false
    | some _ => true

/-- The three summary counters of the run. -/
structure Summary where
  totalChecked : Nat
  updatesAvailable : Nat
  errors : Nat
deriving DecidableEq

/-- One iteration of the counters: `totalChecked` is incremented at the
top of the try block (so even a parse failure is counted as checked), and
exactly one of `updatesAvailable` and `errors` is incremented according
to the verdict. -/
def stepSummary (s : Summary) (w : DeclWorld) : Summary :=
  match processDecl w with
  | .updateAvailable =>
    { totalChecked := s.totalChecked + 1
      updatesAvailable := s.updatesAvailable + 1
      errors := s.errors }
  | .error =>
    { totalChecked := s.totalChecked + 1
      updatesAvailable := s.updatesAvailable
      errors := s.errors + 1 }
  | .upToDate =>
    { totalChecked := s.totalChecked + 1
      updatesAvailable := s.updatesAvailable
      errors := s.errors }

/-- The counters accumulated over the whole declaration list. -/
def runSummary (ws : List DeclWorld) : Summary :=
  ws.foldl stepSummary ⟨0, 0, 0⟩

/-- The up-to-date count printed in the final summary block:
`totalChecked - updatesAvailable - errors`. -/
def reportedUpToDate (s : Summary) : Nat :=
  s.totalChecked - s.updatesAvailable - s.errors

/-- The whole-run oracle: `none` models the root directory scan throwing
(directory missing or unreadable), `some ws` a completed scan with the
per-declaration oracles. -/
structure RunWorld where
  scan : Option (List DeclWorld)
deriving DecidableEq

/-- The process exit status of the script.  When the scan throws, the
rejection of the async main is handled by the trailing
`main().catch(console.error)`, which logs it; the process then exits
normally with status 0.  When the scan completes, the script either calls
`process.exit(0)` (updates found) or returns normally (status 0). -/
def mainExitCode (r : RunWorld) : Nat :=
  match r.scan with
  | none => 0
  | some ws =>
    let s := runSummary ws
    if 0 < s.updatesAvailable then 0 else 0

/-! ### Data model of the category timestamp generator -/

/-- A category as collected by `readCategoryFiles`: the `category` field of
the per-category file becomes `name`, the filename fragment becomes
`slug`, plus the app `count` and the source file name. -/
structure Category where
  name : String
  slug : String
  count : Nat
  filePath : String
deriving DecidableEq

/-- One entry of the combined index: name, slug, count and the resolved
last-updated timestamp. -/
structure CategoryEntry where
  name : String
  slug : String
  count : Nat
  lastUpdated : Nat
deriving DecidableEq

/-- The shape of the combined `categories.json` document. -/
structure CategoriesIndex where
  totalCategories : Nat
  totalApps : Nat
  categories : List CategoryEntry
deriving DecidableEq

/-- The timestamp-resolution loop of the generator.  The git-history
lookups (with their fallback chain) are modelled as an oracle `ts` from
category slug to the resolved timestamp. -/
def addTimestamps (ts : String → Nat) (cats : List Category) : List CategoryEntry :=
  cats.map fun c => { name := c.name, slug := c.slug, count := c.count, lastUpdated := ts c.slug }

/-- The sort comparator `(a, b) => a.name.localeCompare(b.name)`;
`localeCompare` is modelled as code-point string comparison. -/
def nameLe (a b : CategoryEntry) : Bool :=
  decide (a.name ≤ b.name)

/-- `categoriesWithTimestamps.sort(...)`: a stable sort by name. -/
def sortByName (entries : List CategoryEntry) : List CategoryEntry :=
  entries.mergeSort nameLe

/-- The construction of the final `categoriesData` structure: totals and
the sorted entry list. -/
def buildCategoriesData (ts : String → Nat) (cats : List Category) : CategoriesIndex :=
  let categoriesWithTimestamps := sortByName (addTimestamps ts cats)
  { totalCategories := categoriesWithTimestamps.length
    totalApps := categoriesWithTimestamps.foldl (fun sum cat => sum + cat.count) 0
    categories := categoriesWithTimestamps }

/-! ### Helper lemmas -/

/-- Folding the counters over a list adds the list length to
`totalChecked` and the per-verdict counts to the other two counters. -/
theorem foldl_stepSummary_counts (ws : List DeclWorld) (s : Summary) :
    (ws.foldl stepSummary s).totalChecked = s.totalChecked + ws.length ∧
    (ws.foldl stepSummary s).updatesAvailable
      = s.updatesAvailable + ws.countP (fun w => decide (processDecl w = .updateAvailable)) ∧
    (ws.foldl stepSummary s).errors
      = s.errors + ws.countP (fun w => decide (processDecl w = .error)) := by
  induction ws generalizing s with
  | nil => simp
  | cons w ws ih =>
    obtain ⟨h1, h2, h3⟩ := ih (stepSummary s w)
    simp only [List.foldl_cons, List.countP_cons, h1, h2, h3]
    cases h : processDecl w <;> simp [stepSummary, h] <;> omega

/-- The three verdicts partition the processed list. -/
theorem countP_verdicts (ws : List DeclWorld) :
    ws.countP (fun w => decide (processDecl w = .upToDate)) +
    ws.countP (fun w => decide (processDecl w = .updateAvailable)) +
    ws.countP (fun w => decide (processDecl w = .error)) = ws.length := by
  induction ws with
  | nil => simp
  | cons w ws ih =>
    cases h : processDecl w <;> simp [List.countP_cons, h] <;> omega

/-- Folding app counts equals the initial value plus the sum of counts. -/
theorem foldl_count_eq_sum (l : List CategoryEntry) (n : Nat) :
    l.foldl (fun sum cat => sum + cat.count) n = n + (l.map (fun c => c.count)).sum := by
  induction l generalizing n with
  | nil => simp
  | cons c l ih => simp [List.foldl_cons, ih]; omega

/-! ### The claims -/

/-- Claim C2: for every declaration whose recorded revision equals the
fetched latest revision, the verdict is up-to-date and no
revision-comparison (diff) call is made. -/
theorem revision_equality_short_circuits (w : DeclWorld) (md : Metadata)
    (latestCommit : Commit)
    (hm : w.md = some md)
    (hl : getLatestCommit w.commitsResp = some latestCommit)
    (heq : md.commit = latestCommit.sha) :
    processDecl w = .upToDate ∧ diffCalled w = false := by
  constructor <;> simp [processDecl, diffCalled, hm, hl, heq]

/-- Witness for claim C2 at a concrete declaration whose recorded and
latest revisions agree. -/
theorem revision_equality_short_circuits_witness :
    processDecl ⟨some ⟨"n", "o", "r", "abc123", none, none⟩,
        some [⟨"abc123", "d", "m"⟩], none⟩ = .upToDate ∧
    diffCalled ⟨some ⟨"n", "o", "r", "abc123", none, none⟩,
        some [⟨"abc123", "d", "m"⟩], none⟩ = false :=
  revision_equality_short_circuits
    ⟨some ⟨"n", "o", "r", "abc123", none, none⟩, some [⟨"abc123", "d", "m"⟩], none⟩
    ⟨"n", "o", "r", "abc123", none, none⟩ ⟨"abc123", "d", "m"⟩ rfl rfl rfl

/-- Claim C3: for every declaration whose tracked-path list is empty
(including when the `files` field is omitted entirely) and whose recorded
revision differs from the latest revision, the verdict is
update-available and no diff call is performed. -/
theorem empty_tracked_list_fails_open (w : DeclWorld) (md : Metadata)
    (latestCommit : Commit)
    (hm : w.md = some md)
    (hl : getLatestCommit w.commitsResp = some latestCommit)
    (hne : md.commit ≠ latestCommit.sha)
    (hempty : trackedPaths md = []) :
    processDecl w = .updateAvailable ∧ diffCalled w = false := by
  constructor <;> simp [processDecl, diffCalled, hm, hl, hne, hempty]

/-- Witness for claim C3 at a concrete declaration with `files` omitted
entirely and a revision mismatch. -/
theorem empty_tracked_list_fails_open_witness :
    processDecl ⟨some ⟨"n", "o", "r", "abc", none, none⟩,
        some [⟨"def456", "d", "m"⟩], none⟩ = .updateAvailable ∧
    diffCalled ⟨some ⟨"n", "o", "r", "abc", none, none⟩,
        some [⟨"def456", "d", "m"⟩], none⟩ = false :=
  empty_tracked_list_fails_open
    ⟨some ⟨"n", "o", "r", "abc", none, none⟩, some [⟨"def456", "d", "m"⟩], none⟩
    ⟨"n", "o", "r", "abc", none, none⟩ ⟨"def456", "d", "m"⟩ rfl rfl (by decide) rfl

/-- Claim C9: a successful revision-list query that returns an empty list
yields an absent latest commit, and the declaration is counted as an
error and skipped exactly as if the fetch had failed: same verdict, same
counter step, same skipped delay. -/
theorem empty_commit_list_is_error (md : Metadata) (cmp : Option (List ChangedFile))
    (s : Summary) :
    getLatestCommit (some []) = none ∧
    processDecl ⟨some md, some [], cmp⟩ = .error ∧
    stepSummary s ⟨some md, some [], cmp⟩
      = ⟨s.totalChecked + 1, s.updatesAvailable, s.errors + 1⟩ ∧
    processDecl ⟨some md, some [], cmp⟩ = processDecl ⟨some md, none, cmp⟩ ∧
    delayPerformed ⟨some md, some [], cmp⟩ = delayPerformed ⟨some md, none, cmp⟩ :=
  ⟨rfl, rfl, rfl, rfl, rfl⟩

/-- Claim C6 counterexample: when the initial root-directory scan fails,
the exit status is 0, not non-zero — the trailing rejection handler logs
the failure and the process exits normally. -/
theorem scan_failure_exits_zero : mainExitCode ⟨none⟩ = 0 := rfl

/-- Claim C6 amended: the exit status is 0 whenever the run completes the
full declaration scan, and it is also 0 when the initial root-directory
scan itself fails. -/
theorem exit_code_always_zero (r : RunWorld) : mainExitCode r = 0 := by
  obtain ⟨scan⟩ := r
  cases scan <;> simp [mainExitCode]

/-- Claim C8 counterexample: a declaration whose latest-commit fetch
fails receives an error verdict and the rate-limit delay is not performed
after it. -/
theorem delay_skipped_on_fetch_failure :
    delayPerformed ⟨some ⟨"n", "o", "r", "abc", none, none⟩, none, none⟩ = false ∧
    processDecl ⟨some ⟨"n", "o", "r", "abc", none, none⟩, none, none⟩ = .error :=
  ⟨rfl, rfl⟩

/-- Claim C8 amended: the 100 ms delay is performed exactly after the
declarations that complete processing with an up-to-date or
update-available verdict; the early continue after a failed fetch and the
catch block after a read or parse failure skip it. -/
theorem delay_follows_non_error_verdicts (w : DeclWorld) :
    delayMs = 100 ∧ (delayPerformed w = true ↔ processDecl w ≠ .error) := by
  refine ⟨rfl, ?_⟩
  obtain ⟨md, commitsResp, compareResp⟩ := w
  cases md with
  | none => simp [delayPerformed, processDecl]
  | some md =>
    cases hl : getLatestCommit commitsResp with
    | none => simp [delayPerformed, processDecl, hl]
    | some latestCommit =>
      simp only [delayPerformed, processDecl, hl]
      by_cases he : md.commit = latestCommit.sha
      · simp [he]
      · by_cases hfp : 0 < (trackedPaths md).length
        · cases hc : getFileChanges compareResp (trackedPaths md) with
          | none => simp [he, hfp, hc]
          | some changes =>
            by_cases hr : 0 < changes.relevantChanges <;> simp [he, hfp, hc, hr]
        · simp [he, hfp]

/-- Claim C1: for every declaration with a non-empty tracked-path list
and a revision mismatch, the verdict is update-available exactly when the
change filter reports at least one relevant change; a null filter result
(error) or zero relevant changes yields an up-to-date verdict. -/
theorem filter_decides_verdict (w : DeclWorld) (md : Metadata) (latestCommit : Commit)
    (hm : w.md = some md)
    (hl : getLatestCommit w.commitsResp = some latestCommit)
    (hne : md.commit ≠ latestCommit.sha)
    (hnonempty : trackedPaths md ≠ []) :
    (processDecl w = .updateAvailable ↔
      ∃ changes, getFileChanges w.compareResp (trackedPaths md) = some changes ∧
        0 < changes.relevantChanges) ∧
    ((getFileChanges w.compareResp (trackedPaths md) = none ∨
        ∃ changes, getFileChanges w.compareResp (trackedPaths md) = some changes ∧
          changes.relevantChanges = 0) →
      processDecl w = .upToDate) := by
  have hlen : 0 < (trackedPaths md).length := List.length_pos.mpr hnonempty
  have hpd : processDecl w =
      (match getFileChanges w.compareResp (trackedPaths md) with
        | some changes =>
          if 0 < changes.relevantChanges then Verdict.updateAvailable else Verdict.upToDate
        | none => Verdict.upToDate) := by
    simp [processDecl, hm, hl, hne, hlen]
  cases hc : getFileChanges w.compareResp (trackedPaths md) with
  | none =>
    simp only [hc] at hpd
    simp [hpd, hc]
  | some changes =>
    simp only [hc] at hpd
    by_cases hr : 0 < changes.relevantChanges
    · simp only [if_pos hr] at hpd
      refine ⟨?_, ?_⟩
      · simp only [hpd, true_iff]
        exact ⟨changes, rfl, hr⟩
      · rintro (h | ⟨c, hcc, h0⟩)
        · exact absurd h (by simp)
        · obtain rfl : changes = c := by injection hcc
          omega
    · simp only [if_neg hr] at hpd
      refine ⟨?_, fun _ => hpd⟩
      constructor
      · intro h
        rw [hpd] at h
        exact absurd h (by simp)
      · rintro ⟨c, hcc, h0⟩
        obtain rfl : changes = c := by injection hcc
        omega

/-- Witness for claim C1 at a concrete declaration tracking `lib/x.js`,
with a revision mismatch and a diff containing exactly that file. -/
theorem filter_decides_verdict_witness :
    processDecl ⟨some ⟨"n", "o", "r", "abc", none, some [.str "lib/x.js"]⟩,
        some [⟨"def456", "d", "m"⟩], some [⟨"lib/x.js", "modified", 1, 0, ""⟩]⟩
      = .updateAvailable := by
  have h := filter_decides_verdict
    ⟨some ⟨"n", "o", "r", "abc", none, some [.str "lib/x.js"]⟩,
      some [⟨"def456", "d", "m"⟩], some [⟨"lib/x.js", "modified", 1, 0, ""⟩]⟩
    ⟨"n", "o", "r", "abc", none, some [.str "lib/x.js"]⟩
    ⟨"def456", "d", "m"⟩ rfl rfl (by decide) (by decide)
  exact h.1.mpr ⟨⟨1, 1, [⟨"lib/x.js", "modified", 1, 0, ""⟩]⟩, by decide, by decide⟩

/-- Claim C4: the change filter classifies a changed file as relevant
exactly when some tracked path, after a single leading slash is stripped,
is a substring of the changed filename or conversely; in particular the
tracked path src/app.json matches the changed file
packages/foo/src/app.json. -/
theorem relevance_is_bidirectional_substring :
    (∀ (files : List ChangedFile) (filePaths : List String) (f : ChangedFile),
      f ∈ relevantFiles files filePaths ↔
        f ∈ files ∧ ∃ trackPath ∈ filePaths,
          (normalizeTrackPath trackPath).data <:+: f.filename.data ∨
          f.filename.data <:+: (normalizeTrackPath trackPath).data) ∧
    matchesTracked ["src/app.json"] "packages/foo/src/app.json" = true := by
  refine ⟨?_, by decide⟩
  intro files filePaths f
  simp [relevantFiles, List.mem_filter, matchesTracked, List.any_eq_true, strIncludes]

/-- Claim C5: in every run, the checked counter equals available plus
errors plus the up-to-date count reported in the final summary, and that
reported count is the number of up-to-date verdicts. -/
theorem summary_counters_balance (ws : List DeclWorld) :
    (runSummary ws).totalChecked
      = (runSummary ws).updatesAvailable + (runSummary ws).errors
        + reportedUpToDate (runSummary ws) ∧
    reportedUpToDate (runSummary ws)
      = ws.countP (fun w => decide (processDecl w = .upToDate)) := by
  obtain ⟨h1, h2, h3⟩ := foldl_stepSummary_counts ws ⟨0, 0, 0⟩
  have hc := countP_verdicts ws
  simp only [runSummary, reportedUpToDate] at *
  simp at h1 h2 h3
  omega

/-- Claim C7: a declaration whose latest-revision fetch fails receives
the error verdict (no up-to-date or update-available verdict), the run
goes on to process every other declaration, the failure adds exactly one
to the error counter, and the run still exits with status 0. -/
theorem fetch_failure_nonfatal (md : Metadata) (cmp : Option (List ChangedFile))
    (pre post : List DeclWorld) :
    processDecl ⟨some md, none, cmp⟩ = .error ∧
    (runSummary (pre ++ ⟨some md, none, cmp⟩ :: post)).totalChecked
      = pre.length + 1 + post.length ∧
    (runSummary (pre ++ ⟨some md, none, cmp⟩ :: post)).errors
      = (runSummary (pre ++ post)).errors + 1 ∧
    mainExitCode ⟨some (pre ++ ⟨some md, none, cmp⟩ :: post)⟩ = 0 := by
  refine ⟨rfl, ?_, ?_, ?_⟩
  · obtain ⟨h1, -, -⟩ := foldl_stepSummary_counts (pre ++ ⟨some md, none, cmp⟩ :: post) ⟨0, 0, 0⟩
    simp only [runSummary]
    simp at h1
    simp [h1]
    omega
  · obtain ⟨-, -, h3⟩ := foldl_stepSummary_counts (pre ++ ⟨some md, none, cmp⟩ :: post) ⟨0, 0, 0⟩
    obtain ⟨-, -, h3b⟩ := foldl_stepSummary_counts (pre ++ post) ⟨0, 0, 0⟩
    have hw : processDecl ⟨some md, none, cmp⟩ = .error := rfl
    have hx : List.countP (fun w => decide (processDecl w = .error))
        (pre ++ ⟨some md, none, cmp⟩ :: post)
        = List.countP (fun w => decide (processDecl w = .error)) pre
          + List.countP (fun w => decide (processDecl w = .error)) post + 1 := by
      rw [List.countP_append, List.countP_cons]
      simp [hw]
      omega
    have hy : List.countP (fun w => decide (processDecl w = .error)) (pre ++ post)
        = List.countP (fun w => decide (processDecl w = .error)) pre
          + List.countP (fun w => decide (processDecl w = .error)) post :=
      List.countP_append _ _ _
    dsimp only at h3 h3b
    simp only [runSummary]
    omega
  · simp [mainExitCode]

/-- Claim C10: in the combined index, totalCategories equals the number
of category entries, totalApps equals the sum of the per-category counts,
and the entries are sorted in ascending order by name (the localeCompare
comparator modelled as string comparison). -/
theorem categories_index_invariants (ts : String → Nat) (cats : List Category) :
    (buildCategoriesData ts cats).totalCategories
      = (buildCategoriesData ts cats).categories.length ∧
    (buildCategoriesData ts cats).totalApps
      = ((buildCategoriesData ts cats).categories.map (fun c => c.count)).sum ∧
    (buildCategoriesData ts cats).categories.Pairwise
      (fun a b => a.name ≤ b.name) := by
  refine ⟨rfl, ?_, ?_⟩
  · simp only [buildCategoriesData]
    simp [foldl_count_eq_sum]
  · have htrans : ∀ a b c : CategoryEntry,
        nameLe a b = true → nameLe b c = true → nameLe a c = true := by
      intro a b c hab hbc
      simp only [nameLe, decide_eq_true_eq] at hab hbc ⊢
      exact le_trans hab hbc
    have htotal : ∀ a b : CategoryEntry, (nameLe a b || nameLe b a) = true := by
      intro a b
      simp only [nameLe, Bool.or_eq_true, decide_eq_true_eq]
      exact le_total a.name b.name
    have hs := @List.sorted_mergeSort CategoryEntry nameLe htrans htotal (addTimestamps ts cats)
    simp only [buildCategoriesData, sortByName]
    exact hs.imp fun h => by simpa [nameLe] using h
